import Mathlib

/-!
Verification development for the `PostgresqlDataStore` persistence layer
(`src/apscheduler/datastores/postgresql.py`).

The database tables are embedded as lists of rows; every store operation is
embedded as a pure function on that state, translated from the SQL the source
sends.  Timestamps are modelled as integers, byte strings as `List Nat`, and
the wall clock is passed in explicitly (one parameter per `datetime.now()`
call site that matters).  Fallible steps (serialization, schema setup) return
`Except`/`Option` values.
-/

/-- A row of the `schedules` table (see `_setup`, lines 108-117 of the
source): `id TEXT PRIMARY KEY, task_id TEXT, serialized_data BYTEA,
next_fire_time TIMESTAMPTZ NULL, acquired_by TEXT NULL,
acquired_until TIMESTAMPTZ NULL`. -/
structure ScheduleRow where
  id : String
  task_id : String
  serialized_data : List Nat
  next_fire_time : Option Int
  acquired_by : Option String
  acquired_until : Option Int
deriving DecidableEq, Repr

/-- A row of the `jobs` table (source lines 119-128). -/
structure JobRow where
  id : Nat
  serialized_data : List Nat
  task_id : String
  tags : List String
  created_at : Int
  acquired_by : Option String
  acquired_until : Option Int
deriving DecidableEq, Repr

/-- The in-memory `Schedule` object handed to `add_schedule` /
`release_schedules`: the fields of it that the data store reads
(`schedule.id`, `schedule.task_id`, `schedule.next_fire_time`; the payload
itself is only ever passed through the serializer). -/
structure ScheduleObj where
  id : String
  task_id : String
  next_fire_time : Option Int
deriving DecidableEq, Repr

/-- The serializer capability: `serialize(object) -> bytes`, failing with
`SerializationError` (modelled as the `Except` error case). -/
def SerializerFn : Type := ScheduleObj → Except Unit (List Nat)

/-- Mutation events (source `events.py` import): `ScheduleAdded`,
`ScheduleUpdated`, `ScheduleRemoved`, each carrying the timestamp the source
stamps on it. -/
inductive ScheduleEvent where
  | added (ts : Int) (id : String) (next_fire_time : Option Int)
  | updated (ts : Int) (id : String) (next_fire_time : Option Int)
  | removed (ts : Int) (id : String)
deriving DecidableEq, Repr

/-- The conflict policies `add_schedule` distinguishes (source lines
152-154). -/
inductive ConflictPolicy where
  | conflictException
  | replace
deriving DecidableEq, Repr

/-! ## Schedule acquisition (`acquire_schedules`, source lines 195-224)

One transaction cycle of the loop.  The CTE selects ids of rows satisfying

    next_fire_time IS NOT NULL AND next_fire_time <= $1
      AND (acquired_until IS NULL OR $1 > acquired_until)
    ORDER BY next_fire_time
    FOR NO KEY UPDATE SKIP LOCKED
    FETCH FIRST $2 ROWS ONLY

with `$1` a fresh `datetime.now()` and `$2 = limit`; the UPDATE then stamps
`acquired_by = $3 (scheduler_id)` and `acquired_until = $4`, where `$4` was
computed a moment earlier as `now + lock_expiration_delay`.  `SKIP LOCKED` is
modelled by an explicit set `locked` of row ids already row-locked by
concurrent in-flight transactions, which the select skips. -/

/-- Availability test of the WHERE clause (`$1` is `now`). -/
def availableForAcquire (now : Int) (r : ScheduleRow) : Bool :=
  match r.next_fire_time with
  | none => false
  | some t =>
    decide (t ≤ now) &&
      (match r.acquired_until with
       | none => true
       | some u => decide (now > u))

/-- `ORDER BY next_fire_time` comparator (every row it is applied to has a
non-null `next_fire_time`, so the `none` default is never decisive). -/
def fireTimeLE (a b : ScheduleRow) : Bool :=
  decide (a.next_fire_time.getD 0 ≤ b.next_fire_time.getD 0)

/-- Insertion into a list already sorted by `fireTimeLE`. -/
def insertByFireTime (r : ScheduleRow) : List ScheduleRow → List ScheduleRow
  | [] => [r]
  | x :: xs => if fireTimeLE r x then r :: x :: xs else x :: insertByFireTime r xs

/-- `ORDER BY next_fire_time` as an insertion sort (structural recursion, so
concrete instances evaluate). -/
def sortByFireTime : List ScheduleRow → List ScheduleRow
  | [] => []
  | x :: xs => insertByFireTime x (sortByFireTime xs)

/-- The rows selected (and row-locked) by the CTE of `acquire_schedules`:
available rows not locked by a concurrent transaction, ordered by
`next_fire_time`, first `limit` of them. -/
def selectSchedules (db : List ScheduleRow) (now : Int) (limit : Nat)
    (locked : List String) : List ScheduleRow :=
  ((sortByFireTime
    (db.filter (fun r => availableForAcquire now r && !(locked.contains r.id)))).take limit)

/-- One transaction cycle of `acquire_schedules` (no concurrent lock
holders): returns the selected rows together with the updated table, in which
each selected row has `acquired_by = scheduler_id` and
`acquired_until = leaseBase + lockExpirationDelay` (`leaseBase` is the
`datetime.now()` of source line 200). -/
def acquire_schedules (db : List ScheduleRow) (leaseBase now : Int)
    (scheduler_id : String) (lockExpirationDelay : Int) (limit : Nat) :
    List ScheduleRow × List ScheduleRow :=
  let sel := selectSchedules db now limit []
  let ids := sel.map (fun r => r.id)
  (sel,
   db.map (fun r =>
     if ids.contains r.id then
       { r with acquired_by := some scheduler_id,
                acquired_until := some (leaseBase + lockExpirationDelay) }
     else r))

/-- N owners racing `acquire_schedules` in the same window: the database
serializes the row-lock grants, so each transaction's select sees every row
already locked by the still-in-flight earlier transactions and skips it
(`FOR NO KEY UPDATE SKIP LOCKED`).  Returns the id list each owner gets. -/
def raceSelectAux (db : List ScheduleRow) (now : Int) (limit : Nat) :
    List String → List String → List (List String)
  | _, [] => []
  | locked, _owner :: rest =>
    let sel := (selectSchedules db now limit locked).map (fun r => r.id)
    sel :: raceSelectAux db now limit (locked ++ sel) rest

/-- The selections of `owners` racing `acquire_schedules` on `db`. -/
def raceSelect (db : List ScheduleRow) (now : Int) (limit : Nat)
    (owners : List String) : List (List String) :=
  raceSelectAux db now limit [] owners

/-! ## `add_schedule` (source lines 141-170)

INSERT the row; on `UniqueViolationError` (a row with the same primary key
already exists) apply the conflict policy.  Policy `exception` raises
`ConflictingIdError(schedule.id)` (so no event and no notification are
reached); policy `replace` UPDATEs `serialized_data`, `task_id` and
`next_fire_time` of the conflicting row and yields `ScheduleUpdated`; a clean
insert yields `ScheduleAdded`.  Serialization happens before anything else
and an error there propagates. -/

/-- Result of `add_schedule`: the table afterwards, the event published (if
any), and the `ConflictingIdError` id when the call raised. -/
structure AddScheduleResult where
  db : List ScheduleRow
  event : Option ScheduleEvent
  conflictingIdError : Option String
deriving DecidableEq, Repr

/-- Effect on one row of the conflict-policy UPDATE of `add_schedule`
(source lines 155-159): `SET serialized_data = $2, task_id = $3,
next_fire_time = $4 WHERE id = $1`. -/
def replaceScheduleRow (schedule : ScheduleObj) (serialized_data : List Nat)
    (r : ScheduleRow) : ScheduleRow :=
  if r.id == schedule.id then
    { r with serialized_data := serialized_data,
             task_id := schedule.task_id,
             next_fire_time := schedule.next_fire_time }
  else r

def add_schedule (sz : SerializerFn) (db : List ScheduleRow) (now : Int)
    (schedule : ScheduleObj) (policy : ConflictPolicy) :
    Except Unit AddScheduleResult :=
  match sz schedule with
  | .error e => .error e
  | .ok serialized_data =>
    if db.any (fun r => r.id == schedule.id) then
      match policy with
      | .conflictException => .ok ⟨db, none, some schedule.id⟩
      | .replace =>
        .ok ⟨db.map (replaceScheduleRow schedule serialized_data),
             some (.updated now schedule.id schedule.next_fire_time), none⟩
    else
      .ok ⟨db ++ [⟨schedule.id, schedule.task_id, serialized_data,
                   schedule.next_fire_time, none, none⟩],
           some (.added now schedule.id schedule.next_fire_time), none⟩

/-! ## `remove_schedules` (source lines 172-182)

    DELETE FROM schedules
    WHERE id = any($1) AND (acquired_until IS NULL OR acquired_until < $2)
    RETURNING id

then one `ScheduleRemoved(now, id)` per returned id. -/

/-- The lease-absent-or-expired test of the DELETE (`$2` is `now`). -/
def leaseAbsentOrExpired (now : Int) (r : ScheduleRow) : Bool :=
  match r.acquired_until with
  | none => true
  | some u => decide (u < now)

/-- `remove_schedules`: the table afterwards and the published
`ScheduleRemoved` events (one per actually deleted row, in table order). -/
def remove_schedules (db : List ScheduleRow) (now : Int) (ids : List String) :
    List ScheduleRow × List ScheduleEvent :=
  (db.filter (fun r => !(ids.contains r.id && leaseAbsentOrExpired now r)),
   (db.filter (fun r => ids.contains r.id && leaseAbsentOrExpired now r)).map
     (fun r => .removed now r.id))

/-! ## `release_schedules` (source lines 226-270)

A single pass over the batch builds three accumulators: `update_args`
(serialized payload, fire time, id) for schedules with a non-null
`next_fire_time` that serialize cleanly, `update_events` in step with it, and
`finished_schedule_ids` for schedules with a null `next_fire_time` or whose
serialization raised `SerializationError` (caught and logged, line 236).
Then, in one transaction, `executemany` runs per update-arg

    UPDATE schedules SET serialized_data = $1, next_fire_time = $2,
      acquired_by = NULL, acquired_until = NULL
    WHERE id = $3 AND acquired_by = {scheduler_id!r}

(the owner is interpolated via Python `repr` — see the query-text definitions
below; for owner strings free of quotes and backslashes the produced literal
compares equal to the owner, which is what this table-level model uses) and
one DELETE removes the finished ids, `WHERE id = any($1) AND acquired_by
= $2`.  After commit the update events are published, one `schedule`
notification is sent iff there was at least one update event and a channel is
configured, and a `ScheduleRemoved(datetime.now(), id)` is published per
finished id. -/

/-- Accumulator of the partition loop of `release_schedules`. -/
structure ReleasePartition where
  update_args : List (List Nat × Option Int × String)
  update_events : List ScheduleEvent
  finished_schedule_ids : List String
deriving DecidableEq, Repr

/-- One iteration of the `for schedule in schedules` loop (source lines
232-246). -/
def releaseStep (sz : SerializerFn) (now : Int) (acc : ReleasePartition)
    (s : ScheduleObj) : ReleasePartition :=
  match s.next_fire_time with
  | some _ =>
    match sz s with
    | .error _ =>
      { acc with finished_schedule_ids := acc.finished_schedule_ids ++ [s.id] }
    | .ok serialized_data =>
      { acc with
        update_args := acc.update_args ++ [(serialized_data, s.next_fire_time, s.id)],
        update_events := acc.update_events ++ [.updated now s.id s.next_fire_time] }
  | none =>
    { acc with finished_schedule_ids := acc.finished_schedule_ids ++ [s.id] }

/-- The whole partition loop. -/
def releasePartition (sz : SerializerFn) (now : Int)
    (schedules : List ScheduleObj) : ReleasePartition :=
  schedules.foldl (releaseStep sz now) ⟨[], [], []⟩

/-- Effect of one update-arg of the `executemany` on one row. -/
def applyUpdateArg (scheduler_id : String) (r : ScheduleRow)
    (a : List Nat × Option Int × String) : ScheduleRow :=
  if r.id == a.2.2 && r.acquired_by == some scheduler_id then
    { r with serialized_data := a.1, next_fire_time := a.2.1,
             acquired_by := none, acquired_until := none }
  else r

/-- Effect of the whole `executemany` on one row (args applied in order; each
WHERE clause reads only the row it updates, so the statement-by-statement
execution is pointwise). -/
def applyUpdateArgs (scheduler_id : String)
    (args : List (List Nat × Option Int × String)) (r : ScheduleRow) :
    ScheduleRow :=
  args.foldl (applyUpdateArg scheduler_id) r

/-- The DELETE keeps a row unless its id is finished AND the caller owns it. -/
def releaseKeep (scheduler_id : String) (finished : List String)
    (r : ScheduleRow) : Bool :=
  !(finished.contains r.id && r.acquired_by == some scheduler_id)

/-- Fate of a single table row under `release_schedules`: `none` when the
DELETE removes it, `some r2` when it survives as `r2`. -/
def releaseRowFate (scheduler_id : String)
    (args : List (List Nat × Option Int × String)) (finished : List String)
    (r : ScheduleRow) : Option ScheduleRow :=
  let r2 := applyUpdateArgs scheduler_id args r
  if releaseKeep scheduler_id finished r2 then some r2 else none

/-- Result of `release_schedules`: table afterwards, update events, removed
events, and whether the `schedule` notification was sent. -/
structure ReleaseSchedulesResult where
  db : List ScheduleRow
  update_events : List ScheduleEvent
  removed_events : List ScheduleEvent
  notified : Bool
deriving DecidableEq, Repr

/-- `release_schedules` (`now` is the in-transaction clock used for update
events, `pubNow` the later clock read when removed events are built,
`notifyChannel` whether a notification channel is configured). -/
def release_schedules (sz : SerializerFn) (notifyChannel : Bool)
    (db : List ScheduleRow) (now pubNow : Int) (scheduler_id : String)
    (schedules : List ScheduleObj) : ReleaseSchedulesResult :=
  let p := releasePartition sz now schedules
  let db1 := p.update_args.foldl
    (fun d a => d.map (fun r => applyUpdateArg scheduler_id r a)) db
  let db2 := db1.filter (releaseKeep scheduler_id p.finished_schedule_ids)
  { db := db2,
    update_events := p.update_events,
    removed_events := p.finished_schedule_ids.map (fun i => .removed pubNow i),
    notified := !p.update_events.isEmpty && notifyChannel }

/-! ## `release_jobs` (source lines 326-330)

    DELETE FROM jobs WHERE acquired_by = $1 AND id = any($2)

with `$2 = {j.id for j in jobs}`. -/

/-- `release_jobs` given the ids of the job batch. -/
def release_jobs (db : List JobRow) (worker_id : String)
    (job_ids : List Nat) : List JobRow :=
  db.filter (fun r => !(r.acquired_by == some worker_id && job_ids.contains r.id))

/-! ## Schema setup (`_setup`, source lines 93-134)

In one transaction: optionally DROP the three tables (`start_from_scratch`);
`CREATE TABLE IF NOT EXISTS metadata`; read `schema_version` (fetchval: first
row, or NULL when the table is empty); when NULL, `INSERT INTO metadata
VALUES (1)` and run plain `CREATE TABLE` for `schedules` and `jobs` (which
fails if the table already exists); when the stored version exceeds 1, raise
`RuntimeError`.  A failure rolls the transaction back, so the model returns
`Except`: an error leaves the pre-call state in force. -/

/-- Schema-level state: `metadata = none` when the metadata table does not
exist, `some rows` its `schema_version` rows otherwise; the two Booleans
record whether the `schedules` / `jobs` tables exist. -/
structure SchemaState where
  metadata : Option (List Nat)
  schedulesTable : Bool
  jobsTable : Bool
deriving DecidableEq, Repr

/-- `_setup` as a transition on the schema state. -/
def dbSetup (start_from_scratch : Bool) (st : SchemaState) :
    Except String SchemaState :=
  let st0 := if start_from_scratch then (⟨none, false, false⟩ : SchemaState) else st
  let st1 := match st0.metadata with
             | none => { st0 with metadata := some [] }
             | some _ => st0
  match (st1.metadata.getD []).head? with
  | none =>
    if st1.schedulesTable then .error "relation schedules already exists"
    else if st1.jobsTable then .error "relation jobs already exists"
    else .ok { st1 with metadata := some (st1.metadata.getD [] ++ [1]),
                        schedulesTable := true, jobsTable := true }
  | some v =>
    if v > 1 then .error "Unexpected schema version" else .ok st1

/-! ## Notification listener (`_listen_notifications`, source lines 75-91)

    while True:
        async with self.pool.acquire() as conn:
            await conn.add_listener(self.notify_channel, callback)
            try:
                while True:
                    await sleep(self.max_idle_time)
                    await conn.execute(SELECT 1)
            finally:
                await conn.remove_listener(self.notify_channel, callback)

The inner loop only ever exits by an exception from the keep-alive query (or
the sleep); there is NO `except` clause anywhere in the function, so such an
exception runs the `finally` (removing the listener), leaves the `async
with`, and then propagates out of the outer `while True` as well, terminating
the background task.  The keep-alive environment is modelled as a function
from the round index to `none` (round-trip succeeded) or `some e` (the query
raised `e`); `fuel` bounds how many rounds we observe. -/

/-- A connection-level failure of the keep-alive query. -/
inductive ListenerErr where
  | connectionLost
deriving DecidableEq, Repr

/-- The inner keep-alive loop: first failure within `fuel` rounds, starting
at round `k`; `none` means still running when the fuel runs out. -/
def keepAliveLoop (env : Nat → Option ListenerErr) : Nat → Nat → Option ListenerErr
  | _, 0 => none
  | k, fuel + 1 =>
    match env k with
    | none => keepAliveLoop env (k + 1) fuel
    | some e => some e

/-- Observable outcome of `_listen_notifications` after at most `fuel`
keep-alive rounds: `some e` means the task terminated with the uncaught
exception `e` (the error escaped the outer `while True`, since nothing
catches it); `none` means it is still running. -/
def listen_notifications (env : Nat → Option ListenerErr) (fuel : Nat) :
    Option ListenerErr :=
  keepAliveLoop env 0 fuel

/-! ## Query texts of the release paths (source lines 249-260 and 326-330)

`release_schedules` builds its UPDATE with an f-string that interpolates
`{scheduler_id!r}` — the Python `repr` of the owner string — directly into
the SQL text, while its DELETE, and the DELETE of `release_jobs`, pass the
owner as bound parameter `$2` / `$1`.  `pyReprSimple` is Python `repr`
restricted to strings containing no quote, backslash or non-printable
character (on those, `repr` is just the string between two single quotes),
which suffices to evaluate the query text at concrete benign owners. -/

/-- A single-quote character as a string. -/
def singleQuote : String := (Char.ofNat 39).toString

/-- Python `repr` of a string without quotes, backslashes or non-printable
characters. -/
def pyReprSimple (s : String) : String := singleQuote ++ s ++ singleQuote

/-- The UPDATE text of `release_schedules` (f-string of source lines
251-253), as a function of the schema name and the owner id. -/
def releaseSchedulesUpdateQueryText (schema scheduler_id : String) : String :=
  "UPDATE " ++ schema ++ ".schedules SET serialized_data = $1, " ++
    "next_fire_time = $2, acquired_by = NULL, acquired_until = NULL " ++
    "WHERE id = $3 AND acquired_by = " ++ pyReprSimple scheduler_id

/-- The DELETE text of `release_schedules` (source lines 258-259): the owner
travels as bound parameter `$2`, the text does not depend on it. -/
def releaseSchedulesDeleteQueryText (schema : String) : String :=
  "DELETE FROM " ++ schema ++ ".schedules " ++
    "WHERE id = any($1::text[]) AND acquired_by = $2"

/-- The DELETE text of `release_jobs` (source line 329): the owner travels as
bound parameter `$1`, the text does not depend on it. -/
def releaseJobsQueryText (schema : String) : String :=
  "DELETE FROM " ++ schema ++ ".jobs WHERE acquired_by = $1 AND id = any($2::uuid[])"

/-! ## Helper lemmas -/

theorem fireTimeLE_trans (a b c : ScheduleRow) (hab : fireTimeLE a b = true)
    (hbc : fireTimeLE b c = true) : fireTimeLE a c = true := by
  simp only [fireTimeLE, decide_eq_true_eq] at *
  omega

theorem fireTimeLE_total (a b : ScheduleRow) :
    (fireTimeLE a b || fireTimeLE b a) = true := by
  simp only [fireTimeLE, Bool.or_eq_true, decide_eq_true_eq]
  omega

theorem mem_insertByFireTime {a r : ScheduleRow} {l : List ScheduleRow} :
    a ∈ insertByFireTime r l ↔ a = r ∨ a ∈ l := by
  induction l with
  | nil => simp [insertByFireTime]
  | cons x xs ih =>
    simp only [insertByFireTime]
    by_cases h : fireTimeLE r x = true
    · simp [h]
    · simp only [if_neg h, List.mem_cons, ih]
      tauto

theorem mem_sortByFireTime {a : ScheduleRow} {l : List ScheduleRow} :
    a ∈ sortByFireTime l ↔ a ∈ l := by
  induction l with
  | nil => simp [sortByFireTime]
  | cons x xs ih => simp [sortByFireTime, mem_insertByFireTime, ih]

theorem pairwise_insertByFireTime {r : ScheduleRow} {l : List ScheduleRow}
    (h : List.Pairwise (fun a b => fireTimeLE a b = true) l) :
    List.Pairwise (fun a b => fireTimeLE a b = true) (insertByFireTime r l) := by
  induction l with
  | nil => simp [insertByFireTime]
  | cons x xs ih =>
    rcases List.pairwise_cons.mp h with ⟨hx, hxs⟩
    simp only [insertByFireTime]
    by_cases hle : fireTimeLE r x = true
    · rw [if_pos hle]
      refine List.Pairwise.cons ?_ h
      intro b hb
      rcases List.mem_cons.mp hb with rfl | hb2
      · exact hle
      · exact fireTimeLE_trans r x b hle (hx b hb2)
    · rw [if_neg hle]
      have hxr : fireTimeLE x r = true := by
        have htot := fireTimeLE_total r x
        simp only [Bool.or_eq_true] at htot
        tauto
      refine List.Pairwise.cons ?_ (ih hxs)
      intro b hb
      rcases mem_insertByFireTime.mp hb with rfl | hb2
      · exact hxr
      · exact hx b hb2

theorem sorted_sortByFireTime (l : List ScheduleRow) :
    List.Pairwise (fun a b => fireTimeLE a b = true) (sortByFireTime l) := by
  induction l with
  | nil => simp [sortByFireTime]
  | cons x xs ih => exact pairwise_insertByFireTime ih

theorem mem_selectSchedules {db : List ScheduleRow} {now : Int} {limit : Nat}
    {locked : List String} {r : ScheduleRow}
    (h : r ∈ selectSchedules db now limit locked) :
    r ∈ db ∧ availableForAcquire now r = true ∧ r.id ∉ locked := by
  have h2 := List.mem_of_mem_take h
  rw [mem_sortByFireTime, List.mem_filter] at h2
  obtain ⟨hdb, hcond⟩ := h2
  simp only [Bool.and_eq_true, Bool.not_eq_true'] at hcond
  refine ⟨hdb, hcond.1, ?_⟩
  simpa using hcond.2

theorem length_selectSchedules_le (db : List ScheduleRow) (now : Int)
    (limit : Nat) (locked : List String) :
    (selectSchedules db now limit locked).length ≤ limit := by
  simp only [selectSchedules, List.length_take]
  exact inf_le_left

theorem pairwise_selectSchedules (db : List ScheduleRow) (now : Int)
    (limit : Nat) (locked : List String) :
    List.Pairwise (fun a b => fireTimeLE a b = true)
      (selectSchedules db now limit locked) := by
  refine List.Pairwise.sublist (List.take_sublist _ _) ?_
  exact sorted_sortByFireTime _

/-! ## Claim theorems -/

/-- C1: in one transaction cycle, `acquire_schedules(owner_id, limit)` leases
only schedules that are available (next_fire_time set and ≤ now,
acquired_until null or < now), at most `limit` of them, ordered by
`next_fire_time` ascending; each selected row gets `acquired_by = owner_id`
and `acquired_until = now + lease duration`; and a schedule whose lease has
expired (`acquired_until < now`) is available for acquisition even though
`acquired_by` is still set. -/
theorem acquire_schedules_spec (db : List ScheduleRow) (leaseBase now : Int)
    (scheduler_id : String) (lockExpirationDelay : Int) (limit : Nat) :
    (∀ r ∈ (acquire_schedules db leaseBase now scheduler_id lockExpirationDelay limit).1,
       availableForAcquire now r = true) ∧
    (acquire_schedules db leaseBase now scheduler_id lockExpirationDelay limit).1.length
      ≤ limit ∧
    List.Pairwise (fun a b => fireTimeLE a b = true)
      (acquire_schedules db leaseBase now scheduler_id lockExpirationDelay limit).1 ∧
    (∀ r2 ∈ (acquire_schedules db leaseBase now scheduler_id lockExpirationDelay limit).2,
       r2.id ∈ (acquire_schedules db leaseBase now scheduler_id lockExpirationDelay
         limit).1.map (fun r => r.id) →
       r2.acquired_by = some scheduler_id ∧
       r2.acquired_until = some (leaseBase + lockExpirationDelay)) ∧
    (∀ (r : ScheduleRow) (a : String) (u t : Int), r.acquired_by = some a →
       r.acquired_until = some u → u < now → r.next_fire_time = some t →
       t ≤ now → availableForAcquire now r = true) := by
  refine ⟨?_, ?_, ?_, ?_, ?_⟩
  · intro r hr
    exact (mem_selectSchedules hr).2.1
  · exact length_selectSchedules_le db now limit []
  · exact pairwise_selectSchedules db now limit []
  · intro r2 hr2 hid
    simp only [acquire_schedules] at hr2 hid
    obtain ⟨r, _hr, hfr⟩ := List.mem_map.mp hr2
    by_cases hc :
        ((selectSchedules db now limit []).map (fun r => r.id)).contains r.id
    · rw [if_pos hc] at hfr
      rw [← hfr]
      exact ⟨rfl, rfl⟩
    · rw [if_neg hc] at hfr
      exfalso
      rw [← hfr] at hid
      simp only [List.contains_eq_any_beq] at hc
      exact hc (by simpa using hid)
  · intro r a u t hby hu hun hnft hle
    simp only [availableForAcquire, hnft, hu, Bool.and_eq_true,
      decide_eq_true_eq, gt_iff_lt]
    omega

/-- Witness for C1: a concrete acquisition stamps the lease columns, and a
concrete expired-lease row (held by B, lease ended at 3, now = 10) is
available again. -/
theorem acquire_schedules_spec_witness :
    (⟨"s1", "t1", [], some 5, some "A", some 40⟩ : ScheduleRow).acquired_by
        = some "A" ∧
    availableForAcquire 10 ⟨"s2", "t1", [], some 5, some "B", some 3⟩ = true := by
  constructor
  · exact ((acquire_schedules_spec [⟨"s1", "t1", [], some 5, none, none⟩]
      10 10 "A" 30 1).2.2.2.1 ⟨"s1", "t1", [], some 5, some "A", some 40⟩
      (by decide) (by decide)).1
  · exact (acquire_schedules_spec [] 0 10 "A" 30 1).2.2.2.2
      ⟨"s2", "t1", [], some 5, some "B", some 3⟩ "B" 3 5 rfl rfl (by decide)
      rfl (by decide)

theorem raceSelectAux_not_mem_locked (db : List ScheduleRow) (now : Int)
    (limit : Nat) :
    ∀ (owners locked : List String),
      ∀ xs ∈ raceSelectAux db now limit locked owners, ∀ i ∈ xs, i ∉ locked := by
  intro owners
  induction owners with
  | nil =>
    intro locked xs hxs
    simp [raceSelectAux] at hxs
  | cons o rest ih =>
    intro locked xs hxs i hi
    simp only [raceSelectAux, List.mem_cons] at hxs
    rcases hxs with rfl | hxs
    · obtain ⟨r, hr, rfl⟩ := List.mem_map.mp hi
      exact (mem_selectSchedules hr).2.2
    · intro hil
      exact ih _ xs hxs i hi (List.mem_append_left _ hil)

theorem raceSelectAux_pairwise_disjoint (db : List ScheduleRow) (now : Int)
    (limit : Nat) :
    ∀ (owners locked : List String),
      List.Pairwise (fun xs ys => ∀ i ∈ xs, i ∉ ys)
        (raceSelectAux db now limit locked owners) := by
  intro owners
  induction owners with
  | nil =>
    intro locked
    simp [raceSelectAux]
  | cons o rest ih =>
    intro locked
    simp only [raceSelectAux]
    refine List.Pairwise.cons ?_ (ih _)
    intro ys hys i hi hiys
    have hnot := raceSelectAux_not_mem_locked db now limit rest _ ys hys i hiys
    exact hnot (List.mem_append_right _ hi)

/-- C2: for any number of owners racing `acquire_schedules` in the same
acquisition window (each select skipping the rows already row-locked by the
still-in-flight earlier transactions, as `FOR NO KEY UPDATE SKIP LOCKED`
does), the id lists handed to the owners are pairwise disjoint: no schedule
id is returned to two distinct owners. -/
theorem acquire_schedules_mutual_exclusion (db : List ScheduleRow) (now : Int)
    (limit : Nat) (owners : List String) :
    List.Pairwise (fun xs ys => ∀ i ∈ xs, i ∉ ys)
      (raceSelect db now limit owners) :=
  raceSelectAux_pairwise_disjoint db now limit owners []

/-- C3: when a row with `schedule.id` already exists, `add_schedule` under
policy `exception` raises `ConflictingIdError` carrying that id and leaves
the table unmodified (and publishes nothing); under policy `replace` it
updates the conflicting row's payload, task id and next fire time — leaving
every other row as it was — and the event is `ScheduleUpdated`, not
`ScheduleAdded`; with no conflict the insert succeeds under either policy and
the event is `ScheduleAdded`. -/
theorem add_schedule_conflict_policy_spec (sz : SerializerFn)
    (db : List ScheduleRow) (now : Int) (s : ScheduleObj) (data : List Nat)
    (hsz : sz s = .ok data) :
    ((∃ r ∈ db, r.id = s.id) →
      add_schedule sz db now s .conflictException = .ok ⟨db, none, some s.id⟩ ∧
      add_schedule sz db now s .replace =
        .ok ⟨db.map (replaceScheduleRow s data),
             some (.updated now s.id s.next_fire_time), none⟩ ∧
      (∀ r : ScheduleRow, r.id = s.id →
        replaceScheduleRow s data r =
          { r with serialized_data := data, task_id := s.task_id,
                   next_fire_time := s.next_fire_time }) ∧
      (∀ r : ScheduleRow, r.id ≠ s.id → replaceScheduleRow s data r = r)) ∧
    ((¬ ∃ r ∈ db, r.id = s.id) → ∀ policy,
      add_schedule sz db now s policy =
        .ok ⟨db ++ [⟨s.id, s.task_id, data, s.next_fire_time, none, none⟩],
             some (.added now s.id s.next_fire_time), none⟩) := by
  constructor
  · intro hdup
    have hany : db.any (fun r => r.id == s.id) = true := by
      rw [List.any_eq_true]
      obtain ⟨r, hr, hid⟩ := hdup
      exact ⟨r, hr, by simpa using hid⟩
    refine ⟨?_, ?_, ?_, ?_⟩
    · simp [add_schedule, hsz, hany]
    · simp [add_schedule, hsz, hany]
    · intro r hid
      simp [replaceScheduleRow, hid]
    · intro r hid
      simp [replaceScheduleRow, hid]
  · intro hnodup policy
    have hany : db.any (fun r => r.id == s.id) = false := by
      rw [Bool.eq_false_iff]
      intro hc
      rw [List.any_eq_true] at hc
      obtain ⟨r, hr, hid⟩ := hc
      exact hnodup ⟨r, hr, by simpa using hid⟩
    simp [add_schedule, hsz, hany]

/-- Witness for C3: a concrete duplicate id under both policies and a
concrete clean insert. -/
theorem add_schedule_conflict_policy_spec_witness :
    add_schedule (fun _ => .ok [7]) [⟨"s1", "t0", [1], some 4, none, none⟩] 9
        ⟨"s1", "t1", some 6⟩ .conflictException =
      .ok ⟨[⟨"s1", "t0", [1], some 4, none, none⟩], none, some "s1"⟩ ∧
    add_schedule (fun _ => .ok [7]) [⟨"s1", "t0", [1], some 4, none, none⟩] 9
        ⟨"s1", "t1", some 6⟩ .replace =
      .ok ⟨[⟨"s1", "t1", [7], some 6, none, none⟩],
           some (.updated 9 "s1" (some 6)), none⟩ ∧
    add_schedule (fun _ => .ok [7]) [] 9 ⟨"s1", "t1", some 6⟩ .conflictException =
      .ok ⟨[⟨"s1", "t1", [7], some 6, none, none⟩],
           some (.added 9 "s1" (some 6)), none⟩ := by
  have h1 := (add_schedule_conflict_policy_spec (fun _ => .ok [7])
    [⟨"s1", "t0", [1], some 4, none, none⟩] 9 ⟨"s1", "t1", some 6⟩ [7] rfl).1
    ⟨⟨"s1", "t0", [1], some 4, none, none⟩, by simp, rfl⟩
  have h2 := (add_schedule_conflict_policy_spec (fun _ => .ok [7]) [] 9
    ⟨"s1", "t1", some 6⟩ [7] rfl).2 (by simp) .conflictException
  refine ⟨h1.1, ?_, h2⟩
  rw [h1.2.1]
  simp [replaceScheduleRow]

/-- C5: `remove_schedules(ids)` deletes exactly those requested rows whose
lease is absent or expired; a requested row under an active lease survives;
and a `ScheduleRemoved` event is produced exactly for the rows actually
deleted (each event's id comes from a deleted requested row, and every
deleted requested row yields its event). -/
theorem remove_schedules_spec (db : List ScheduleRow) (now : Int)
    (ids : List String) :
    (∀ r : ScheduleRow, r ∈ (remove_schedules db now ids).1 ↔
       r ∈ db ∧ ¬(r.id ∈ ids ∧ leaseAbsentOrExpired now r = true)) ∧
    (∀ r ∈ db, r.id ∈ ids → leaseAbsentOrExpired now r = false →
       r ∈ (remove_schedules db now ids).1) ∧
    (∀ e ∈ (remove_schedules db now ids).2, ∃ r ∈ db, r.id ∈ ids ∧
       leaseAbsentOrExpired now r = true ∧ e = .removed now r.id ∧
       r ∉ (remove_schedules db now ids).1) ∧
    (∀ r ∈ db, r.id ∈ ids → leaseAbsentOrExpired now r = true →
       (ScheduleEvent.removed now r.id) ∈ (remove_schedules db now ids).2) := by
  refine ⟨?_, ?_, ?_, ?_⟩
  · intro r
    simp only [remove_schedules, List.mem_filter, Bool.not_eq_true',
      Bool.and_eq_true, Bool.eq_false_iff, ne_eq]
    constructor
    · rintro ⟨hdb, hcond⟩
      refine ⟨hdb, ?_⟩
      intro ⟨hin, hlease⟩
      exact hcond ⟨by simpa using hin, hlease⟩
    · rintro ⟨hdb, hcond⟩
      refine ⟨hdb, ?_⟩
      intro ⟨hc, hlease⟩
      exact hcond ⟨by simpa using hc, hlease⟩
  · intro r hdb hin hlease
    simp only [remove_schedules, List.mem_filter]
    refine ⟨hdb, ?_⟩
    simp [hlease]
  · intro e he
    simp only [remove_schedules, List.mem_map] at he
    obtain ⟨r, hr, rfl⟩ := he
    rw [List.mem_filter] at hr
    obtain ⟨hdb, hcond⟩ := hr
    simp only [Bool.and_eq_true] at hcond
    refine ⟨r, hdb, by simpa using hcond.1, hcond.2, rfl, ?_⟩
    intro hmem
    simp only [remove_schedules, List.mem_filter, Bool.not_eq_true',
      Bool.and_eq_true] at hmem
    rw [Bool.eq_false_iff] at hmem
    exact hmem.2 (by simp only [Bool.and_eq_true]; exact ⟨hcond.1, hcond.2⟩)
  · intro r hdb hin hlease
    simp only [remove_schedules, List.mem_map]
    refine ⟨r, ?_, rfl⟩
    rw [List.mem_filter]
    refine ⟨hdb, ?_⟩
    simp [hin, hlease]

/-- Witness for C5: one expired-lease row is deleted with its event, one
actively leased row survives. -/
theorem remove_schedules_spec_witness :
    (⟨"keep", "t", [], some 1, some "A", some 20⟩ : ScheduleRow) ∈
      (remove_schedules [⟨"keep", "t", [], some 1, some "A", some 20⟩,
        ⟨"gone", "t", [], some 1, some "A", some 3⟩] 10 ["keep", "gone"]).1 ∧
    (ScheduleEvent.removed 10 "gone") ∈
      (remove_schedules [⟨"keep", "t", [], some 1, some "A", some 20⟩,
        ⟨"gone", "t", [], some 1, some "A", some 3⟩] 10 ["keep", "gone"]).2 := by
  constructor
  · exact (remove_schedules_spec [⟨"keep", "t", [], some 1, some "A", some 20⟩,
      ⟨"gone", "t", [], some 1, some "A", some 3⟩] 10 ["keep", "gone"]).2.1
      ⟨"keep", "t", [], some 1, some "A", some 20⟩ (by simp) (by decide) (by decide)
  · exact (remove_schedules_spec [⟨"keep", "t", [], some 1, some "A", some 20⟩,
      ⟨"gone", "t", [], some 1, some "A", some 3⟩] 10 ["keep", "gone"]).2.2.2
      ⟨"gone", "t", [], some 1, some "A", some 3⟩ (by simp) (by decide) (by decide)

/-! ### Characterizations of `release_schedules` -/

/-- The still-active test of the partition loop as the CODE performs it: a
non-null `next_fire_time` (no comparison with the clock) and a clean
serialization. -/
def codeStillActive (sz : SerializerFn) (s : ScheduleObj) : Bool :=
  s.next_fire_time.isSome &&
    (match sz s with
     | .ok _ => true
     | .error _ => false)

/-- The update-arg tuple an item contributes, when it contributes one. -/
def updateArgOf (sz : SerializerFn) (s : ScheduleObj) :
    Option (List Nat × Option Int × String) :=
  match s.next_fire_time with
  | none => none
  | some _ =>
    match sz s with
    | .error _ => none
    | .ok d => some (d, s.next_fire_time, s.id)

theorem releasePartition_append (sz : SerializerFn) (now : Int)
    (scheds : List ScheduleObj) :
    ∀ acc : ReleasePartition,
      scheds.foldl (releaseStep sz now) acc =
        ⟨acc.update_args ++ (releasePartition sz now scheds).update_args,
         acc.update_events ++ (releasePartition sz now scheds).update_events,
         acc.finished_schedule_ids ++
           (releasePartition sz now scheds).finished_schedule_ids⟩ := by
  induction scheds with
  | nil => intro acc; simp [releasePartition]
  | cons s ss ih =>
    intro acc
    simp only [releasePartition, List.foldl_cons] at *
    rw [ih (releaseStep sz now acc s), ih (releaseStep sz now ⟨[], [], []⟩ s)]
    rcases hn : s.next_fire_time with _ | t
    · simp [releaseStep, hn]
    · rcases hs : sz s with e | d
      · simp [releaseStep, hn, hs]
      · simp [releaseStep, hn, hs]

theorem releasePartition_update_args (sz : SerializerFn) (now : Int)
    (scheds : List ScheduleObj) :
    (releasePartition sz now scheds).update_args =
      scheds.filterMap (updateArgOf sz) := by
  induction scheds with
  | nil => rfl
  | cons s ss ih =>
    show (List.foldl (releaseStep sz now) (releaseStep sz now ⟨[], [], []⟩ s) ss).update_args = _
    rw [releasePartition_append sz now ss (releaseStep sz now ⟨[], [], []⟩ s)]
    simp only [List.filterMap_cons]
    rcases hn : s.next_fire_time with _ | t
    · simp [releaseStep, hn, updateArgOf, ih]
    · rcases hs : sz s with e | d
      · simp [releaseStep, hn, hs, updateArgOf, ih]
      · simp [releaseStep, hn, hs, updateArgOf, ih]

theorem releasePartition_update_events (sz : SerializerFn) (now : Int)
    (scheds : List ScheduleObj) :
    (releasePartition sz now scheds).update_events =
      (scheds.filter (codeStillActive sz)).map
        (fun s => ScheduleEvent.updated now s.id s.next_fire_time) := by
  induction scheds with
  | nil => rfl
  | cons s ss ih =>
    show (List.foldl (releaseStep sz now) (releaseStep sz now ⟨[], [], []⟩ s) ss).update_events = _
    rw [releasePartition_append sz now ss (releaseStep sz now ⟨[], [], []⟩ s)]
    simp only [List.filter_cons]
    rcases hn : s.next_fire_time with _ | t
    · simp [releaseStep, hn, codeStillActive, ih]
    · rcases hs : sz s with e | d
      · simp [releaseStep, hn, hs, codeStillActive, ih]
      · simp [releaseStep, hn, hs, codeStillActive, ih]

theorem releasePartition_finished_ids (sz : SerializerFn) (now : Int)
    (scheds : List ScheduleObj) :
    (releasePartition sz now scheds).finished_schedule_ids =
      (scheds.filter (fun s => !codeStillActive sz s)).map (fun s => s.id) := by
  induction scheds with
  | nil => rfl
  | cons s ss ih =>
    show (List.foldl (releaseStep sz now) (releaseStep sz now ⟨[], [], []⟩ s) ss).finished_schedule_ids = _
    rw [releasePartition_append sz now ss (releaseStep sz now ⟨[], [], []⟩ s)]
    simp only [List.filter_cons]
    rcases hn : s.next_fire_time with _ | t
    · simp [releaseStep, hn, codeStillActive, ih]
    · rcases hs : sz s with e | d
      · simp [releaseStep, hn, hs, codeStillActive, ih]
      · simp [releaseStep, hn, hs, codeStillActive, ih]

theorem updateFold_eq_map (scheduler_id : String)
    (args : List (List Nat × Option Int × String)) :
    ∀ db : List ScheduleRow,
      args.foldl (fun d a => d.map (fun r => applyUpdateArg scheduler_id r a)) db =
        db.map (applyUpdateArgs scheduler_id args) := by
  induction args with
  | nil => intro db; exact (List.map_id' db).symm
  | cons a as ih =>
    intro db
    simp only [List.foldl_cons]
    rw [ih, List.map_map]
    rfl

theorem filter_map_eq_filterMap (f : ScheduleRow → ScheduleRow)
    (p : ScheduleRow → Bool) (l : List ScheduleRow) :
    (l.map f).filter p =
      l.filterMap (fun r => if p (f r) then some (f r) else none) := by
  induction l with
  | nil => rfl
  | cons x xs ih =>
    simp only [List.map_cons, List.filter_cons, List.filterMap_cons]
    by_cases h : p (f x) = true
    · simp [h, ih]
    · simp [h, ih]

theorem release_schedules_db_eq (sz : SerializerFn) (nc : Bool)
    (db : List ScheduleRow) (now pubNow : Int) (scheduler_id : String)
    (schedules : List ScheduleObj) :
    (release_schedules sz nc db now pubNow scheduler_id schedules).db =
      db.filterMap (releaseRowFate scheduler_id
        (releasePartition sz now schedules).update_args
        (releasePartition sz now schedules).finished_schedule_ids) := by
  simp only [release_schedules]
  rw [updateFold_eq_map, filter_map_eq_filterMap]
  rfl

theorem applyUpdateArg_not_owner {scheduler_id : String} {r : ScheduleRow}
    (a : List Nat × Option Int × String)
    (h : r.acquired_by ≠ some scheduler_id) :
    applyUpdateArg scheduler_id r a = r := by
  simp only [applyUpdateArg]
  rw [if_neg]
  simp only [Bool.and_eq_true, beq_iff_eq]
  tauto

theorem applyUpdateArgs_not_owner {scheduler_id : String}
    {args : List (List Nat × Option Int × String)} {r : ScheduleRow}
    (h : r.acquired_by ≠ some scheduler_id) :
    applyUpdateArgs scheduler_id args r = r := by
  induction args with
  | nil => rfl
  | cons a as ih =>
    show applyUpdateArgs scheduler_id as (applyUpdateArg scheduler_id r a) = r
    rw [applyUpdateArg_not_owner a h]
    exact ih

theorem releaseKeep_not_owner {scheduler_id : String}
    {finished : List String} {r : ScheduleRow}
    (h : r.acquired_by ≠ some scheduler_id) :
    releaseKeep scheduler_id finished r = true := by
  simp only [releaseKeep, Bool.not_eq_true']
  simp [beq_iff_eq, h]

theorem releaseRowFate_not_owner {scheduler_id : String}
    {args : List (List Nat × Option Int × String)} {finished : List String}
    {r : ScheduleRow} (h : r.acquired_by ≠ some scheduler_id) :
    releaseRowFate scheduler_id args finished r = some r := by
  simp only [releaseRowFate, applyUpdateArgs_not_owner h,
    releaseKeep_not_owner h, if_true]

/-- C4: `release_schedules(owner_id, ...)` and `release_jobs(owner_id, ...)`
touch only rows whose `acquired_by` equals the caller: the table after
`release_schedules` is the per-row image of `releaseRowFate` (each row is
independently updated, kept, or deleted), a row not held by the caller has
fate `some r` — completely unchanged — and so survives verbatim in both the
schedules and jobs tables, whatever ids the batch names. -/
theorem release_ownership_frame_spec (sz : SerializerFn) (nc : Bool)
    (db : List ScheduleRow) (jdb : List JobRow) (now pubNow : Int)
    (owner : String) (schedules : List ScheduleObj) (job_ids : List Nat) :
    ((release_schedules sz nc db now pubNow owner schedules).db =
       db.filterMap (releaseRowFate owner
         (releasePartition sz now schedules).update_args
         (releasePartition sz now schedules).finished_schedule_ids)) ∧
    (∀ r : ScheduleRow, r.acquired_by ≠ some owner →
       releaseRowFate owner (releasePartition sz now schedules).update_args
         (releasePartition sz now schedules).finished_schedule_ids r = some r) ∧
    (∀ r ∈ db, r.acquired_by ≠ some owner →
       r ∈ (release_schedules sz nc db now pubNow owner schedules).db) ∧
    (∀ r ∈ jdb, r.acquired_by ≠ some owner →
       r ∈ release_jobs jdb owner job_ids) := by
  refine ⟨release_schedules_db_eq sz nc db now pubNow owner schedules,
    fun r h => releaseRowFate_not_owner h, ?_, ?_⟩
  · intro r hr h
    rw [release_schedules_db_eq]
    exact List.mem_filterMap.mpr ⟨r, hr, releaseRowFate_not_owner h⟩
  · intro r hr h
    simp only [release_jobs, List.mem_filter]
    refine ⟨hr, ?_⟩
    simp [beq_iff_eq, h]

/-- Witness for C4: a schedule row and a job row leased by B survive a
release by A verbatim, even though the batches name their ids. -/
theorem release_ownership_frame_spec_witness :
    (⟨"s1", "t", [], some 5, some "B", some 40⟩ : ScheduleRow) ∈
      (release_schedules (fun _ => .ok []) true
        [⟨"s1", "t", [], some 5, some "B", some 40⟩] 9 10 "A"
        [⟨"s1", "t", none⟩]).db ∧
    (⟨1, [], "t", [], 0, some "B", some 40⟩ : JobRow) ∈
      release_jobs [⟨1, [], "t", [], 0, some "B", some 40⟩] "A" [1] := by
  constructor
  · exact (release_ownership_frame_spec (fun _ => .ok []) true
      [⟨"s1", "t", [], some 5, some "B", some 40⟩] [] 9 10 "A"
      [⟨"s1", "t", none⟩] []).2.2.1
      ⟨"s1", "t", [], some 5, some "B", some 40⟩ (by simp) (by decide)
  · exact (release_ownership_frame_spec (fun _ => .ok []) true []
      [⟨1, [], "t", [], 0, some "B", some 40⟩] 9 10 "A" [] [1]).2.2.2
      ⟨1, [], "t", [], 0, some "B", some 40⟩ (by simp) (by decide)

/-- The still-active test as the C6 claim words it: a FUTURE `next_fire_time`
(strictly after `now`) that serializes cleanly. -/
def specStillActive (sz : SerializerFn) (now : Int) (s : ScheduleObj) : Bool :=
  (match s.next_fire_time with
   | none => false
   | some t => decide (now < t)) &&
    (match sz s with
     | .ok _ => true
     | .error _ => false)

/-- The finished test as the C6 claim words it: `next_fire_time` null, or
serialization raised. -/
def specFinished (sz : SerializerFn) (s : ScheduleObj) : Bool :=
  (match s.next_fire_time with
   | none => true
   | some _ => false) ||
    (match sz s with
     | .ok _ => false
     | .error _ => true)

/-- Counterexample to C6 as stated: a schedule whose `next_fire_time` is in
the past (0, with now = 1) and which serializes cleanly is neither
still-active per the claim (no *future* fire time) nor finished per the
claim (fire time non-null, serialization clean) — yet the code batch-updates
it and emits a `ScheduleUpdated` event for it, because the source only tests
`next_fire_time is not None` and never compares it with the clock. -/
theorem release_schedules_future_counterexample :
    (release_schedules (fun _ => .ok []) true [] 1 2 "A"
       [⟨"s1", "t", some 0⟩]).update_events = [.updated 1 "s1" (some 0)] ∧
    specStillActive (fun _ => .ok []) 1 ⟨"s1", "t", some 0⟩ = false ∧
    specFinished (fun _ => .ok []) ⟨"s1", "t", some 0⟩ = false :=
  ⟨rfl, rfl, rfl⟩

/-- C6 (amended: "future `next_fire_time`" becomes "non-null
`next_fire_time`"): `release_schedules` partitions the batch by
`codeStillActive` — non-null fire time and clean serialization; a
`SerializationError` is caught, never surfaced (the operation is total) —
the still-active items are exactly the update-arg batch and each gets a
`ScheduleUpdated` event, and the finished items (null fire time or failed
serialization) are exactly the batch-deleted ids and each gets a
`ScheduleRemoved` event and (for distinct batch ids) never a
`ScheduleUpdated` event. -/
theorem release_schedules_partition_spec (sz : SerializerFn) (nc : Bool)
    (db : List ScheduleRow) (now pubNow : Int) (owner : String)
    (schedules : List ScheduleObj) :
    ((release_schedules sz nc db now pubNow owner schedules).update_events =
       (schedules.filter (codeStillActive sz)).map
         (fun s => ScheduleEvent.updated now s.id s.next_fire_time)) ∧
    ((release_schedules sz nc db now pubNow owner schedules).removed_events =
       (schedules.filter (fun s => !codeStillActive sz s)).map
         (fun s => ScheduleEvent.removed pubNow s.id)) ∧
    ((releasePartition sz now schedules).update_args =
       schedules.filterMap (updateArgOf sz)) ∧
    (∀ s : ScheduleObj, codeStillActive sz s = false ↔
       (s.next_fire_time = none ∨ sz s = .error ())) ∧
    (∀ s ∈ schedules, codeStillActive sz s = false →
       (ScheduleEvent.removed pubNow s.id) ∈
         (release_schedules sz nc db now pubNow owner schedules).removed_events ∧
       ((schedules.map (fun x => x.id)).Nodup → ∀ (ts : Int) (nft : Option Int),
          ScheduleEvent.updated ts s.id nft ∉
            (release_schedules sz nc db now pubNow owner schedules).update_events)) := by
  have hue : (release_schedules sz nc db now pubNow owner schedules).update_events =
      (schedules.filter (codeStillActive sz)).map
        (fun s => ScheduleEvent.updated now s.id s.next_fire_time) := by
    show (releasePartition sz now schedules).update_events = _
    exact releasePartition_update_events sz now schedules
  have hre : (release_schedules sz nc db now pubNow owner schedules).removed_events =
      (schedules.filter (fun s => !codeStillActive sz s)).map
        (fun s => ScheduleEvent.removed pubNow s.id) := by
    show (releasePartition sz now schedules).finished_schedule_ids.map
      (fun i => ScheduleEvent.removed pubNow i) = _
    rw [releasePartition_finished_ids, List.map_map]
    rfl
  refine ⟨hue, hre, releasePartition_update_args sz now schedules, ?_, ?_⟩
  · intro s
    rcases hn : s.next_fire_time with _ | t
    · simp [codeStillActive, hn]
    · rcases hs : sz s with e | d
      · cases e
        simp [codeStillActive, hn, hs]
      · simp [codeStillActive, hn, hs]
  · intro s hs hfin
    constructor
    · rw [hre]
      refine List.mem_map.mpr ⟨s, List.mem_filter.mpr ⟨hs, ?_⟩, rfl⟩
      simp [hfin]
    · intro hnodup ts nft hmem
      rw [hue] at hmem
      obtain ⟨s2, hs2, heq⟩ := List.mem_map.mp hmem
      rw [List.mem_filter] at hs2
      injection heq with hts hid hnft
      have : s2 = s :=
        List.inj_on_of_nodup_map hnodup hs2.1 hs hid
      rw [this] at hs2
      rw [hfin] at hs2
      exact Bool.false_ne_true hs2.2

/-- Witness for C6 (amended): in a concrete batch with one active and one
finished item, the finished item gets a removed event and no updated
event. -/
theorem release_schedules_partition_spec_witness :
    (ScheduleEvent.removed 2 "b") ∈
      (release_schedules (fun _ => .ok []) true [] 1 2 "A"
        [⟨"a", "t", some 5⟩, ⟨"b", "t", none⟩]).removed_events ∧
    ScheduleEvent.updated 1 "b" (some 5) ∉
      (release_schedules (fun _ => .ok []) true [] 1 2 "A"
        [⟨"a", "t", some 5⟩, ⟨"b", "t", none⟩]).update_events := by
  have h := (release_schedules_partition_spec (fun _ => .ok []) true [] 1 2 "A"
    [⟨"a", "t", some 5⟩, ⟨"b", "t", none⟩]).2.2.2.2
    ⟨"b", "t", none⟩ (by simp) (by decide)
  exact ⟨h.1, h.2 (by decide) 1 (some 5)⟩

/-- C10: the update events, removed events and `schedule` notification of
`release_schedules` are computed solely from the input batch (each
schedule's `next_fire_time` and whether it serializes) — identical for any
two table states — and not from which rows the ownership-filtered UPDATE
and DELETE actually modified; in particular, for a batch item, its removed
(null fire time) or updated (non-null, serializes) event is emitted
whatever the table holds, while a row the caller does not own is left in
the table untouched. -/
theorem release_schedules_events_independent_of_db (sz : SerializerFn)
    (nc : Bool) (now pubNow : Int) (owner : String)
    (schedules : List ScheduleObj) :
    (∀ db1 db2 : List ScheduleRow,
      (release_schedules sz nc db1 now pubNow owner schedules).update_events =
        (release_schedules sz nc db2 now pubNow owner schedules).update_events ∧
      (release_schedules sz nc db1 now pubNow owner schedules).removed_events =
        (release_schedules sz nc db2 now pubNow owner schedules).removed_events ∧
      (release_schedules sz nc db1 now pubNow owner schedules).notified =
        (release_schedules sz nc db2 now pubNow owner schedules).notified) ∧
    (∀ (db : List ScheduleRow) (s : ScheduleObj), s ∈ schedules →
      s.next_fire_time = none →
      (ScheduleEvent.removed pubNow s.id) ∈
        (release_schedules sz nc db now pubNow owner schedules).removed_events) ∧
    (∀ (db : List ScheduleRow) (s : ScheduleObj) (t : Int) (d : List Nat),
      s ∈ schedules → s.next_fire_time = some t → sz s = .ok d →
      (ScheduleEvent.updated now s.id s.next_fire_time) ∈
        (release_schedules sz nc db now pubNow owner schedules).update_events) ∧
    (∀ (db : List ScheduleRow) (r : ScheduleRow), r ∈ db →
      r.acquired_by ≠ some owner →
      r ∈ (release_schedules sz nc db now pubNow owner schedules).db) := by
  refine ⟨fun db1 db2 => ⟨rfl, rfl, rfl⟩, ?_, ?_, ?_⟩
  · intro db s hs hnone
    show (ScheduleEvent.removed pubNow s.id) ∈
      (releasePartition sz now schedules).finished_schedule_ids.map
        (fun i => ScheduleEvent.removed pubNow i)
    rw [releasePartition_finished_ids]
    refine List.mem_map.mpr
      ⟨s.id, List.mem_map.mpr ⟨s, List.mem_filter.mpr ⟨hs, ?_⟩, rfl⟩, rfl⟩
    simp [codeStillActive, hnone]
  · intro db s t d hs hnft hsz
    show _ ∈ (releasePartition sz now schedules).update_events
    rw [releasePartition_update_events]
    refine List.mem_map.mpr ⟨s, List.mem_filter.mpr ⟨hs, ?_⟩, rfl⟩
    simp [codeStillActive, hnft, hsz]
  · intro db r hr h
    rw [release_schedules_db_eq]
    exact List.mem_filterMap.mpr ⟨r, hr, releaseRowFate_not_owner h⟩

/-- Witness for C10: releasing by A a finished batch item whose row is
leased by B still publishes the removed event for that id, while the row
itself survives untouched. -/
theorem release_schedules_events_independent_of_db_witness :
    (ScheduleEvent.removed 2 "s1") ∈
      (release_schedules (fun _ => .ok []) true
        [⟨"s1", "t", [], some 5, some "B", some 40⟩] 1 2 "A"
        [⟨"s1", "t", none⟩]).removed_events ∧
    (⟨"s1", "t", [], some 5, some "B", some 40⟩ : ScheduleRow) ∈
      (release_schedules (fun _ => .ok []) true
        [⟨"s1", "t", [], some 5, some "B", some 40⟩] 1 2 "A"
        [⟨"s1", "t", none⟩]).db := by
  constructor
  · exact (release_schedules_events_independent_of_db (fun _ => .ok []) true
      1 2 "A" [⟨"s1", "t", none⟩]).2.1
      [⟨"s1", "t", [], some 5, some "B", some 40⟩] ⟨"s1", "t", none⟩
      (by simp) rfl
  · exact (release_schedules_events_independent_of_db (fun _ => .ok []) true
      1 2 "A" [⟨"s1", "t", none⟩]).2.2.2
      [⟨"s1", "t", [], some 5, some "B", some 40⟩]
      ⟨"s1", "t", [], some 5, some "B", some 40⟩ (by simp) (by decide)

/-- C7 (evaluation of the code at the failing input): `_listen_notifications`
has no `except` clause, so when a keep-alive round-trip fails the exception
runs the `finally`, leaves the `async with`, and escapes the outer
`while True` — the embedded listener terminates with the error instead of
reopening the subscription, i.e. the failure propagates out of the
background task as fatal, for every fuel bound. -/
theorem listen_notifications_fatal_on_failure :
    listen_notifications (fun _ => some .connectionLost) 1 =
      some .connectionLost ∧
    ∀ fuel : Nat,
      listen_notifications (fun _ => some .connectionLost) (fuel + 1) =
        some .connectionLost :=
  ⟨rfl, fun _ => rfl⟩

/-- C8 (evaluation of the code at the failing input): the UPDATE path of
`release_schedules` interpolates `repr(scheduler_id)` into the SQL text, so
the query string sent depends on the owner identifier's content — already
two benign owners "A" and "B" produce different texts, refuting "the query
string sent is independent of the owner identifier's content"; the DELETE
texts of `release_schedules` and `release_jobs` are constant functions of
the schema only, so those paths do bind the owner. -/
theorem release_schedules_owner_interpolated :
    (releaseSchedulesUpdateQueryText "public" "A" ==
       releaseSchedulesUpdateQueryText "public" "B") = false := by
  decide

/-- C9: on a fresh database, `_setup` produces exactly one metadata row
holding version 1 and both tables; running `_setup` again on any state it
already succeeded on changes nothing (idempotent — in particular it never
re-runs the duplicate-table-creating branch); and on a stored schema version
greater than 1 it fails fatally instead of migrating. -/
theorem dbSetup_idempotent_spec :
    (dbSetup false ⟨none, false, false⟩ = .ok ⟨some [1], true, true⟩) ∧
    (∀ st s : SchemaState, dbSetup false st = .ok s → dbSetup false s = .ok s) ∧
    (∀ (st : SchemaState) (v : Nat) (rest : List Nat),
       st.metadata = some (v :: rest) → v > 1 →
       dbSetup false st = .error "Unexpected schema version") := by
  refine ⟨rfl, ?_, ?_⟩
  · intro st s h
    obtain ⟨meta, sched, jobs⟩ := st
    rcases meta with _ | rows
    · cases sched
      · cases jobs
        · simp only [dbSetup] at h
          rw [← Except.ok.inj h]
          rfl
        · simp [dbSetup] at h
      · simp [dbSetup] at h
    · rcases rows with _ | ⟨v, rest⟩
      · cases sched
        · cases jobs
          · simp only [dbSetup] at h
            rw [← Except.ok.inj h]
            rfl
          · simp [dbSetup] at h
        · simp [dbSetup] at h
      · by_cases hv : v > 1
        · simp [dbSetup, hv] at h
        · simp [dbSetup, hv] at h
          subst h
          simp [dbSetup, hv]
  · intro st v rest hm hv
    obtain ⟨meta, sched, jobs⟩ := st
    simp only [SchemaState.metadata] at hm
    subst hm
    simp [dbSetup, hv]

/-- Witness for C9: re-running setup on the state a fresh setup produced is a
no-op, and a stored version 2 makes setup fail. -/
theorem dbSetup_idempotent_spec_witness :
    dbSetup false ⟨some [1], true, true⟩ = .ok ⟨some [1], true, true⟩ ∧
    dbSetup false ⟨some [2], true, true⟩ = .error "Unexpected schema version" :=
  ⟨dbSetup_idempotent_spec.2.1 ⟨none, false, false⟩ ⟨some [1], true, true⟩ rfl,
   dbSetup_idempotent_spec.2.2 ⟨some [2], true, true⟩ 2 [] rfl (by decide)⟩
